/-
Verification of `merge_csv_text.py` (stuart_speaks_app/docs).

The script scans a directory for CSV files, extracts the "Text" column of
each file via `csv.DictReader`, strips each value, collects the non-empty
ones in file-then-row order, joins them with single spaces and writes the
result to `merged_vocabulary.txt`, printing per-file and summary counts.

The embedding below models, at the level of parsed rows:
  * Python `str.strip()` on the default whitespace set (`stripChars` / `pyStrip`),
  * `' '.join(...)` (`joinChars` / `spaceJoin`),
  * `str.split()` with no argument, used for the approximate word count (`pyWords`),
  * `csv.DictReader` field access, including the `restval=None` padding for
    short rows, last-occurrence wins for duplicate header names, and the
    skipping of blank rows (`dictReaderGet`, and the `vals = []` case in
    `extractRows`),
  * the two uncaught exceptions the script can raise: `TypeError` from
    `'Text' not in None` on a headerless file and `AttributeError` from
    `None.strip()` on a short row (`PyError`),
  * the main loop and the final join / counts (`extractRows`, `processFile`,
    `processFiles`, `runScript`).
A run is a function of the discovered file sequence; console side effects
that the claims mention (warnings, "Extracted" messages) are modelled as
counters in the result.
-/
import Mathlib

namespace MergeCsv

/-- Python's default whitespace set for `str.strip()` / `str.split()`,
restricted to the ASCII range: space, tab, newline, carriage return,
vertical tab, form feed. -/
def pyIsSpace (c : Char) : Bool :=
  c == ' ' || c == '\t' || c == '\n' || c == '\r' || c == '\x0b' || c == '\x0c'

/-- `str.strip()` on a list of characters: drop whitespace from the front,
then from the back. -/
def stripChars (l : List Char) : List Char :=
  ((l.dropWhile pyIsSpace).reverse.dropWhile pyIsSpace).reverse

/-- Python `s.strip()`. -/
def pyStrip (s : String) : String := ⟨stripChars s.data⟩

/-- `' '.join(...)` on lists of characters: a single space between
consecutive items, nothing at the ends. -/
def joinChars : List (List Char) → List Char
  | [] => []
  | [s] => s
  | s :: t :: r => s ++ ' ' :: joinChars (t :: r)

/-- Python `' '.join(all_text)`. -/
def spaceJoin (l : List String) : String := ⟨joinChars (l.map String.data)⟩

/-- Python `s.split()` with no separator: split on whitespace runs,
discarding empty pieces.  Used only for the approximate word count. -/
def pyWords (l : List Char) : List (List Char) :=
  (l.splitOnP pyIsSpace).filter (· ≠ [])

/-- The dict values `csv.DictReader` builds for one data row: the raw
values, truncated or padded with `None` (`restval`) to the header length. -/
def padRow (header vals : List String) : List (Option String) :=
  (vals.map some).take header.length ++
    List.replicate (header.length - vals.length) none

/-- `row[key]` for a `csv.DictReader` row: the value bound to the LAST
occurrence of `key` in the header (later dict assignments win), `none`
when that binding is Python `None` (row shorter than the header). -/
def dictReaderGet (header vals : List String) (key : String) : Option String :=
  (List.lookup key ((header.zip (padRow header vals)).reverse)).join

/-- The two uncaught exceptions the script can raise. -/
inductive PyError where
  | typeError
  | attributeError
deriving DecidableEq

/-- One discovered CSV file, at the level of parsed rows.  `header = none`
models a completely empty file, for which `DictReader.fieldnames` is
Python `None`. -/
structure CSVFile where
  name : String
  header : Option (List String)
  rows : List (List String)

/-- The inner row loop: for each row, `text = row['Text'].strip()`;
`if text: all_text.append(text)`.  Blank rows (`[]`) are skipped by
`DictReader` itself.  A `None` field value raises `AttributeError` from
`.strip()`.  Returns the entries this file appends, in row order. -/
def extractRows (header : List String) : List (List String) → Except PyError (List String)
  | [] => .ok []
  | vals :: rest =>
    if vals = [] then extractRows header rest
    else
      match dictReaderGet header vals "Text" with
      | none => .error .attributeError
      | some s =>
        match extractRows header rest with
        | .error e => .error e
        | .ok l => .ok (if pyStrip s = "" then l else pyStrip s :: l)

/-- One iteration of the file loop.  `.error` = uncaught exception;
`.ok none` = the warning branch (no "Text" column, file skipped);
`.ok (some l)` = the file contributed entries `l` and printed one
"Extracted" message. -/
def processFile (f : CSVFile) : Except PyError (Option (List String)) :=
  match f.header with
  | none => .error .typeError
  | some h =>
    if "Text" ∈ h then
      match extractRows h f.rows with
      | .error e => .error e
      | .ok l => .ok (some l)
    else .ok none

/-- The whole file loop: accumulated entries (file-then-row order), number
of "Extracted" messages, number of missing-column warnings. -/
def processFiles : List CSVFile → Except PyError (List String × Nat × Nat)
  | [] => .ok ([], 0, 0)
  | f :: rest =>
    match processFile f with
    | .error e => .error e
    | .ok none =>
      match processFiles rest with
      | .error e => .error e
      | .ok (l, m, w) => .ok (l, m, w + 1)
    | .ok (some entries) =>
      match processFiles rest with
      | .error e => .error e
      | .ok (l, m, w) => .ok (entries ++ l, m + 1, w)

/-- Observable outcome of a completed run: the collected entries, the two
console counters, the merged string written to `merged_vocabulary.txt`,
and the two summary numbers (`len(merged_text)` and
`len(merged_text.split())`). -/
structure ScriptResult where
  allText : List String
  extractedMsgs : Nat
  warnings : Nat
  mergedText : String
  totalChars : Nat
  wordCount : Nat
deriving DecidableEq

instance {ε α : Type} [DecidableEq ε] [DecidableEq α] : DecidableEq (Except ε α)
  | .ok a, .ok b =>
    if h : a = b then .isTrue (by rw [h]) else .isFalse (by intro hh; cases hh; exact h rfl)
  | .error a, .error b =>
    if h : a = b then .isTrue (by rw [h]) else .isFalse (by intro hh; cases hh; exact h rfl)
  | .ok _, .error _ => .isFalse (by intro hh; cases hh)
  | .error _, .ok _ => .isFalse (by intro hh; cases hh)

/-- The whole script on a discovered file sequence. -/
def runScript (files : List CSVFile) : Except PyError ScriptResult :=
  match processFiles files with
  | .error e => .error e
  | .ok (l, m, w) =>
    let merged := spaceJoin l
    .ok ⟨l, m, w, merged, merged.data.length, (pyWords merged.data).length⟩

/-- The entries one file contributes on the success path (empty when the
file is skipped). -/
def fileEntries (f : CSVFile) : List String :=
  match processFile f with
  | .ok (some l) => l
  | _ => []

/-- Does the file's header row contain the required field "Text"? -/
def hasTextColumn (f : CSVFile) : Bool :=
  match f.header with
  | some h => "Text" ∈ h
  | none => false

/-- The extraction-relevant content of a file: everything but its name. -/
def fileContents (f : CSVFile) : Option (List String) × List (List String) :=
  (f.header, f.rows)

/-- The number of "Extracted" messages the script actually prints,
including on runs that abort: the per-file message is printed after the
file's row loop finishes, so a file that raises mid-rows prints no
message and no later file is reached.  On completed runs this agrees
with the `extractedMsgs` counter of the result. -/
def extractedMsgsPrinted : List CSVFile → Nat
  | [] => 0
  | f :: rest =>
    match processFile f with
    | .error _ => 0
    | .ok none => extractedMsgsPrinted rest
    | .ok (some _) => 1 + extractedMsgsPrinted rest

/-- The merged string has no character at the front that Python counts as
whitespace (vacuously true of the empty string). -/
def headNotSpace : List Char → Bool
  | [] => true
  | c :: _ => !pyIsSpace c

/-- No whitespace character at the back (vacuously true of `[]`). -/
def lastNotSpace : List Char → Bool
  | [] => true
  | [c] => !pyIsSpace c
  | _ :: c :: rest => lastNotSpace (c :: rest)

/-- Two consecutive ASCII space characters occur somewhere. -/
def hasDoubleSpace : List Char → Bool
  | c₁ :: c₂ :: rest => (c₁ == ' ' && c₂ == ' ') || hasDoubleSpace (c₂ :: rest)
  | _ => false

/-- If every pair whose key matches carries `none`, the (joined) lookup is
`none`. -/
lemma lookup_join_none (key : String) :
    ∀ pairs : List (String × Option String),
      (∀ p ∈ pairs, p.1 = key → p.2 = none) →
      (List.lookup key pairs).join = none := by
  intro pairs h
  induction pairs with
  | nil => rfl
  | cons p rest ih =>
    obtain ⟨k, v⟩ := p
    by_cases hk : key = k
    · have hv : v = none := h (k, v) (by simp) hk.symm
      simp [List.lookup, hk, hv]
    · have hbk : (key == k) = false := by simp [hk]
      simp only [List.lookup, hbk]
      exact ih (fun q hq hq1 => h q (by simp [hq]) hq1)

/-- A blank row gives Python `None` for every header field. -/
lemma dictReaderGet_nil (hdr : List String) (key : String) :
    dictReaderGet hdr [] key = none := by
  unfold dictReaderGet
  apply lookup_join_none
  intro p hp _
  rw [List.mem_reverse] at hp
  have h2 := (List.of_mem_zip hp).2
  have : padRow hdr [] = List.replicate hdr.length none := by
    simp [padRow]
  rw [this] at h2
  exact List.eq_of_mem_replicate h2

lemma extractRows_nil (hdr : List String) : extractRows hdr [] = .ok [] := rfl

lemma extractRows_cons_blank (hdr : List String) (rest : List (List String)) :
    extractRows hdr ([] :: rest) = extractRows hdr rest := by
  simp [extractRows]

lemma extractRows_cons_none {hdr vals : List String} (rest : List (List String))
    (hv : vals ≠ []) (hg : dictReaderGet hdr vals "Text" = none) :
    extractRows hdr (vals :: rest) = .error .attributeError := by
  simp [extractRows, hv, hg]

lemma extractRows_cons_some_error {hdr vals : List String}
    {rest : List (List String)} {s : String} {e : PyError} (hv : vals ≠ [])
    (hg : dictReaderGet hdr vals "Text" = some s)
    (hr : extractRows hdr rest = .error e) :
    extractRows hdr (vals :: rest) = .error e := by
  simp [extractRows, hv, hg, hr]

lemma extractRows_cons_some_ok {hdr vals : List String}
    {rest : List (List String)} {s : String} {l : List String} (hv : vals ≠ [])
    (hg : dictReaderGet hdr vals "Text" = some s)
    (hr : extractRows hdr rest = .ok l) :
    extractRows hdr (vals :: rest) =
      .ok (if pyStrip s = "" then l else pyStrip s :: l) := by
  simp [extractRows, hv, hg, hr]

lemma processFiles_nil : processFiles [] = .ok ([], 0, 0) := rfl

lemma processFiles_cons_error {f : CSVFile} (rest : List CSVFile) {e : PyError}
    (hf : processFile f = .error e) : processFiles (f :: rest) = .error e := by
  simp [processFiles, hf]

lemma processFiles_cons_skip_error {f : CSVFile} {rest : List CSVFile}
    {e : PyError} (hf : processFile f = .ok none)
    (hr : processFiles rest = .error e) : processFiles (f :: rest) = .error e := by
  simp [processFiles, hf, hr]

lemma processFiles_cons_skip_ok {f : CSVFile} {rest : List CSVFile}
    {l : List String} {m w : Nat} (hf : processFile f = .ok none)
    (hr : processFiles rest = .ok (l, m, w)) :
    processFiles (f :: rest) = .ok (l, m, w + 1) := by
  simp [processFiles, hf, hr]

lemma processFiles_cons_ext_error {f : CSVFile} {rest : List CSVFile}
    {entries : List String} {e : PyError} (hf : processFile f = .ok (some entries))
    (hr : processFiles rest = .error e) : processFiles (f :: rest) = .error e := by
  simp [processFiles, hf, hr]

lemma processFiles_cons_ext_ok {f : CSVFile} {rest : List CSVFile}
    {entries l : List String} {m w : Nat} (hf : processFile f = .ok (some entries))
    (hr : processFiles rest = .ok (l, m, w)) :
    processFiles (f :: rest) = .ok (entries ++ l, m + 1, w) := by
  simp [processFiles, hf, hr]

/-- Prefixing already-extracted rows: if the first rows succeed with
entries `l`, the whole row list behaves as the remaining rows with `l`
prepended. -/
lemma extractRows_append (hdr : List String) :
    ∀ (pre post : List (List String)) (l : List String),
      extractRows hdr pre = .ok l →
      extractRows hdr (pre ++ post) =
        (extractRows hdr post).map (fun l2 => l ++ l2) := by
  intro pre
  induction pre with
  | nil =>
    intro post l hp
    rw [extractRows_nil] at hp
    injection hp with h
    subst h
    rw [List.nil_append]
    cases h2 : extractRows hdr post with
    | error e => rfl
    | ok l2 => rfl
  | cons vals rest ih =>
    intro post l hp
    by_cases hv : vals = []
    · subst hv
      rw [extractRows_cons_blank] at hp
      rw [List.cons_append, extractRows_cons_blank]
      exact ih post l hp
    · cases hget : dictReaderGet hdr vals "Text" with
      | none =>
        rw [extractRows_cons_none rest hv hget] at hp
        exact Except.noConfusion hp
      | some s =>
        cases hrest : extractRows hdr rest with
        | error e =>
          rw [extractRows_cons_some_error hv hget hrest] at hp
          exact Except.noConfusion hp
        | ok l' =>
          rw [extractRows_cons_some_ok hv hget hrest] at hp
          injection hp with h
          subst h
          rw [List.cons_append]
          cases h2 : extractRows hdr post with
          | error e =>
            have h3 : extractRows hdr (rest ++ post) = .error e := by
              rw [ih post l' hrest, h2]; rfl
            rw [extractRows_cons_some_error hv hget h3]
            rfl
          | ok l2 =>
            have h3 : extractRows hdr (rest ++ post) = .ok (l' ++ l2) := by
              rw [ih post l' hrest, h2]; rfl
            rw [extractRows_cons_some_ok hv hget h3]
            by_cases hs : pyStrip s = "" <;> simp [hs, Except.map]

/-- Prefixing already-processed files: the whole file list behaves as the
remaining files with the accumulated entries and counters prepended. -/
lemma processFiles_append :
    ∀ (pre post : List CSVFile) (l : List String) (m w : Nat),
      processFiles pre = .ok (l, m, w) →
      processFiles (pre ++ post) =
        (processFiles post).map (fun r => (l ++ r.1, m + r.2.1, w + r.2.2)) := by
  intro pre
  induction pre with
  | nil =>
    intro post l m w hp
    rw [processFiles_nil] at hp
    injection hp with h
    injection h with h1 h2
    injection h2 with h2 h3
    subst h1; subst h2; subst h3
    rw [List.nil_append]
    cases h2 : processFiles post with
    | error e => rfl
    | ok r => obtain ⟨a, b, c⟩ := r; simp [Except.map]
  | cons f rest ih =>
    intro post l m w hp
    cases hf : processFile f with
    | error e =>
      rw [processFiles_cons_error rest hf] at hp
      exact Except.noConfusion hp
    | ok o =>
      cases o with
      | none =>
        cases hrest : processFiles rest with
        | error e =>
          rw [processFiles_cons_skip_error hf hrest] at hp
          exact Except.noConfusion hp
        | ok r =>
          obtain ⟨l0, m0, w0⟩ := r
          rw [processFiles_cons_skip_ok hf hrest] at hp
          injection hp with h
          injection h with h1 h2
          injection h2 with h2 h3
          subst h1; subst h2; subst h3
          rw [List.cons_append]
          cases h2 : processFiles post with
          | error e =>
            have h3 : processFiles (rest ++ post) = .error e := by
              rw [ih post l0 m0 w0 hrest, h2]; rfl
            rw [processFiles_cons_skip_error hf h3]
            rfl
          | ok r2 =>
            obtain ⟨a, b, c⟩ := r2
            have h3 : processFiles (rest ++ post) = .ok (l0 ++ a, m0 + b, w0 + c) := by
              rw [ih post l0 m0 w0 hrest, h2]; rfl
            rw [processFiles_cons_skip_ok hf h3]
            simp only [Except.map, Except.ok.injEq, Prod.mk.injEq,
              List.append_assoc, true_and, and_true, eq_self_iff_true]
            omega
      | some entries =>
        cases hrest : processFiles rest with
        | error e =>
          rw [processFiles_cons_ext_error hf hrest] at hp
          exact Except.noConfusion hp
        | ok r =>
          obtain ⟨l0, m0, w0⟩ := r
          rw [processFiles_cons_ext_ok hf hrest] at hp
          injection hp with h
          injection h with h1 h2
          injection h2 with h2 h3
          subst h1; subst h2; subst h3
          rw [List.cons_append]
          cases h2 : processFiles post with
          | error e =>
            have h3 : processFiles (rest ++ post) = .error e := by
              rw [ih post l0 m0 w0 hrest, h2]; rfl
            rw [processFiles_cons_ext_error hf h3]
            rfl
          | ok r2 =>
            obtain ⟨a, b, c⟩ := r2
            have h3 : processFiles (rest ++ post) = .ok (l0 ++ a, m0 + b, w0 + c) := by
              rw [ih post l0 m0 w0 hrest, h2]; rfl
            rw [processFiles_cons_ext_ok hf h3]
            simp only [Except.map, Except.ok.injEq, Prod.mk.injEq,
              List.append_assoc, true_and, and_true, eq_self_iff_true]
            omega

lemma processFile_no_header {f : CSVFile} (hf : f.header = none) :
    processFile f = .error .typeError := by
  simp [processFile, hf]

lemma processFile_no_text {f : CSVFile} {hd : List String}
    (hf : f.header = some hd) (hn : "Text" ∉ hd) : processFile f = .ok none := by
  simp [processFile, hf, hn]

lemma processFile_ext_ok {f : CSVFile} {hd : List String} {l : List String}
    (hf : f.header = some hd) (ht : "Text" ∈ hd)
    (hr : extractRows hd f.rows = .ok l) : processFile f = .ok (some l) := by
  simp [processFile, hf, ht, hr]

lemma processFile_ext_error {f : CSVFile} {hd : List String} {e : PyError}
    (hf : f.header = some hd) (ht : "Text" ∈ hd)
    (hr : extractRows hd f.rows = .error e) : processFile f = .error e := by
  simp [processFile, hf, ht, hr]

/-- A file the loop skips with a warning is exactly one whose header lacks
the "Text" column. -/
lemma hasTextColumn_false_of_skip {f : CSVFile}
    (h : processFile f = .ok none) : hasTextColumn f = false := by
  cases hh : f.header with
  | none => rw [processFile_no_header hh] at h; exact Except.noConfusion h
  | some hd =>
    by_cases ht : "Text" ∈ hd
    · cases hr : extractRows hd f.rows with
      | error e =>
        rw [processFile_ext_error hh ht hr] at h
        exact Except.noConfusion h
      | ok l =>
        rw [processFile_ext_ok hh ht hr] at h
        injection h with h
        exact Option.noConfusion h
    · simp [hasTextColumn, hh, ht]

lemma hasTextColumn_true_of_ext {f : CSVFile} {entries : List String}
    (h : processFile f = .ok (some entries)) : hasTextColumn f = true := by
  cases hh : f.header with
  | none => rw [processFile_no_header hh] at h; exact Except.noConfusion h
  | some hd =>
    by_cases ht : "Text" ∈ hd
    · simp [hasTextColumn, hh, ht]
    · rw [processFile_no_text hh ht] at h
      injection h with h
      exact Option.noConfusion h

/-- A file that contributed entries did so through `extractRows` on a
header that has the "Text" column. -/
lemma processFile_ext_inv {f : CSVFile} {entries : List String}
    (h : processFile f = .ok (some entries)) :
    ∃ hd, f.header = some hd ∧ "Text" ∈ hd ∧ extractRows hd f.rows = .ok entries := by
  cases hh : f.header with
  | none => rw [processFile_no_header hh] at h; exact Except.noConfusion h
  | some hd =>
    by_cases ht : "Text" ∈ hd
    · cases hr : extractRows hd f.rows with
      | error e =>
        rw [processFile_ext_error hh ht hr] at h
        exact Except.noConfusion h
      | ok l =>
        rw [processFile_ext_ok hh ht hr] at h
        injection h with h
        injection h with h
        exact ⟨hd, by simp [hh], ht, by rw [hr, h]⟩
    · rw [processFile_no_text hh ht] at h
      injection h with h
      exact Option.noConfusion h

/-- An erroring prefix of the file loop aborts the whole loop. -/
lemma processFiles_append_error :
    ∀ (pre post : List CSVFile) (e : PyError),
      processFiles pre = .error e → processFiles (pre ++ post) = .error e := by
  intro pre
  induction pre with
  | nil => intro post e hp; exact Except.noConfusion hp
  | cons f rest ih =>
    intro post e hp
    cases hf : processFile f with
    | error e2 =>
      rw [processFiles_cons_error rest hf] at hp
      injection hp with h
      subst h
      rw [List.cons_append]
      exact processFiles_cons_error _ hf
    | ok o =>
      cases o with
      | none =>
        cases hrest : processFiles rest with
        | error e2 =>
          rw [processFiles_cons_skip_error hf hrest] at hp
          injection hp with h
          subst h
          rw [List.cons_append]
          exact processFiles_cons_skip_error hf (ih post _ hrest)
        | ok t =>
          obtain ⟨l, m, w⟩ := t
          rw [processFiles_cons_skip_ok hf hrest] at hp
          exact Except.noConfusion hp
      | some entries =>
        cases hrest : processFiles rest with
        | error e2 =>
          rw [processFiles_cons_ext_error hf hrest] at hp
          injection hp with h
          subst h
          rw [List.cons_append]
          exact processFiles_cons_ext_error hf (ih post _ hrest)
        | ok t =>
          obtain ⟨l, m, w⟩ := t
          rw [processFiles_cons_ext_ok hf hrest] at hp
          exact Except.noConfusion hp

lemma runScript_error (files : List CSVFile) (e : PyError)
    (hp : processFiles files = .error e) : runScript files = .error e := by
  simp [runScript, hp]

lemma runScript_eq (files : List CSVFile) (l : List String) (m w : Nat)
    (hp : processFiles files = .ok (l, m, w)) :
    runScript files =
      .ok ⟨l, m, w, spaceJoin l, (spaceJoin l).data.length,
        (pyWords (spaceJoin l).data).length⟩ := by
  simp [runScript, hp]

/-- A completed run is determined by the outcome of the file loop. -/
lemma runScript_ok_inv {files : List CSVFile} {r : ScriptResult}
    (h : runScript files = .ok r) :
    ∃ l m w, processFiles files = .ok (l, m, w) ∧
      r = ⟨l, m, w, spaceJoin l, (spaceJoin l).data.length,
        (pyWords (spaceJoin l).data).length⟩ := by
  cases hp : processFiles files with
  | error e => rw [runScript_error files e hp] at h; exact Except.noConfusion h
  | ok t =>
    obtain ⟨l, m, w⟩ := t
    rw [runScript_eq files l m w hp] at h
    injection h with h
    exact ⟨l, m, w, rfl, h.symm⟩

/-- The accumulated entry list is the concatenation, in discovery order,
of the per-file entry lists. -/
lemma processFiles_allText :
    ∀ (files : List CSVFile) (l : List String) (m w : Nat),
      processFiles files = .ok (l, m, w) → l = (files.map fileEntries).flatten := by
  intro files
  induction files with
  | nil =>
    intro l m w hp
    rw [processFiles_nil] at hp
    injection hp with h
    injection h with h1 h2
    subst h1
    simp
  | cons f rest ih =>
    intro l m w hp
    cases hf : processFile f with
    | error e =>
      rw [processFiles_cons_error rest hf] at hp
      exact Except.noConfusion hp
    | ok o =>
      cases o with
      | none =>
        cases hrest : processFiles rest with
        | error e =>
          rw [processFiles_cons_skip_error hf hrest] at hp
          exact Except.noConfusion hp
        | ok t =>
          obtain ⟨l0, m0, w0⟩ := t
          rw [processFiles_cons_skip_ok hf hrest] at hp
          injection hp with h
          injection h with h1 h2
          subst h1
          have hfe : fileEntries f = [] := by simp [fileEntries, hf]
          simp [hfe, ih l0 m0 w0 hrest]
      | some entries =>
        cases hrest : processFiles rest with
        | error e =>
          rw [processFiles_cons_ext_error hf hrest] at hp
          exact Except.noConfusion hp
        | ok t =>
          obtain ⟨l0, m0, w0⟩ := t
          rw [processFiles_cons_ext_ok hf hrest] at hp
          injection hp with h
          injection h with h1 h2
          subst h1
          have hfe : fileEntries f = entries := by simp [fileEntries, hf]
          simp [hfe, ih l0 m0 w0 hrest]

/-- The number of "Extracted" messages of a completed loop equals the
number of files whose header has the "Text" column. -/
lemma processFiles_msgs :
    ∀ (files : List CSVFile) (l : List String) (m w : Nat),
      processFiles files = .ok (l, m, w) →
      m = (files.filter hasTextColumn).length := by
  intro files
  induction files with
  | nil =>
    intro l m w hp
    rw [processFiles_nil] at hp
    injection hp with h
    injection h with h1 h2
    injection h2 with h2 h3
    subst h2
    simp
  | cons f rest ih =>
    intro l m w hp
    cases hf : processFile f with
    | error e =>
      rw [processFiles_cons_error rest hf] at hp
      exact Except.noConfusion hp
    | ok o =>
      cases o with
      | none =>
        cases hrest : processFiles rest with
        | error e =>
          rw [processFiles_cons_skip_error hf hrest] at hp
          exact Except.noConfusion hp
        | ok t =>
          obtain ⟨l0, m0, w0⟩ := t
          rw [processFiles_cons_skip_ok hf hrest] at hp
          injection hp with h
          injection h with h1 h2
          injection h2 with h2 h3
          subst h2
          simp [List.filter_cons, hasTextColumn_false_of_skip hf,
            ih l0 m0 w0 hrest]
      | some entries =>
        cases hrest : processFiles rest with
        | error e =>
          rw [processFiles_cons_ext_error hf hrest] at hp
          exact Except.noConfusion hp
        | ok t =>
          obtain ⟨l0, m0, w0⟩ := t
          rw [processFiles_cons_ext_ok hf hrest] at hp
          injection hp with h
          injection h with h1 h2
          injection h2 with h2 h3
          subst h2
          simp [List.filter_cons, hasTextColumn_true_of_ext hf,
            ih l0 m0 w0 hrest]

/-- On a completed run the printed "Extracted" messages are exactly the
`extractedMsgs` counter of the file loop. -/
lemma extractedMsgsPrinted_eq :
    ∀ (files : List CSVFile) (l : List String) (m w : Nat),
      processFiles files = .ok (l, m, w) → extractedMsgsPrinted files = m := by
  intro files
  induction files with
  | nil =>
    intro l m w hp
    rw [processFiles_nil] at hp
    cases hp
    rfl
  | cons f rest ih =>
    intro l m w hp
    cases hf : processFile f with
    | error e =>
      rw [processFiles_cons_error rest hf] at hp
      exact Except.noConfusion hp
    | ok o =>
      cases o with
      | none =>
        cases hrest : processFiles rest with
        | error e =>
          rw [processFiles_cons_skip_error hf hrest] at hp
          exact Except.noConfusion hp
        | ok t =>
          obtain ⟨l0, m0, w0⟩ := t
          rw [processFiles_cons_skip_ok hf hrest] at hp
          injection hp with h
          injection h with h1 h2
          injection h2 with h2 h3
          subst h2
          simp only [extractedMsgsPrinted, hf]
          exact ih l0 m0 w0 hrest
      | some entries =>
        cases hrest : processFiles rest with
        | error e =>
          rw [processFiles_cons_ext_error hf hrest] at hp
          exact Except.noConfusion hp
        | ok t =>
          obtain ⟨l0, m0, w0⟩ := t
          rw [processFiles_cons_ext_ok hf hrest] at hp
          injection hp with h
          injection h with h1 h2
          injection h2 with h2 h3
          subst h2
          simp only [extractedMsgsPrinted, hf]
          rw [ih l0 m0 w0 hrest]
          omega

/-- `processFile` never looks at the file's name. -/
lemma processFile_congr {f g : CSVFile} (h : fileContents f = fileContents g) :
    processFile f = processFile g := by
  obtain ⟨nf, hf, rf⟩ := f
  obtain ⟨ng, hg, rg⟩ := g
  simp only [fileContents, Prod.mk.injEq] at h
  obtain ⟨h1, h2⟩ := h
  subst h1
  subst h2
  rfl

lemma processFiles_congr :
    ∀ (files1 files2 : List CSVFile),
      files1.map fileContents = files2.map fileContents →
      processFiles files1 = processFiles files2 := by
  intro files1
  induction files1 with
  | nil =>
    intro files2 h
    cases files2 with
    | nil => rfl
    | cons g s => exact absurd h (by simp)
  | cons f t ih =>
    intro files2 h
    cases files2 with
    | nil => exact absurd h (by simp)
    | cons g s =>
      simp only [List.map_cons, List.cons.injEq] at h
      obtain ⟨hc, ht⟩ := h
      simp only [processFiles, processFile_congr hc, ih s ht]

/-- The single file of spec Scenario A. -/
def scenarioAFile : CSVFile :=
  ⟨"transcript.csv", some ["Name", "Text"], [["A", "hello"], ["B", "  world  "]]⟩

/-- C1: a directory with one CSV file, header `Name,Text`, rows
`("A","hello")` and `("B","  world  ")`, merges to exactly `"hello world"`:
each Text value is stripped and the stripped values are joined by single
spaces. -/
theorem spec_C1 :
    runScript [scenarioAFile] =
      .ok ⟨["hello", "world"], 1, 0, "hello world", 11, 2⟩ := by
  decide

/-- C5: with no CSV files discovered, the run completes normally, the
merged output is the empty string, and both the character count and the
approximate word count are 0. -/
theorem spec_C5 : runScript [] = .ok ⟨[], 0, 0, "", 0, 0⟩ := by
  decide

/-- Scenario C file 1: yields entries `["foo", "bar"]`. -/
def witFoo : CSVFile := ⟨"file1.csv", some ["Text"], [["foo"], ["bar"]]⟩

/-- Scenario C file 2: yields entry `["baz"]`. -/
def witBaz : CSVFile := ⟨"file2.csv", some ["Text"], [["baz"]]⟩

/-- Scenario B file: header without a "Text" column. -/
def noTextFile : CSVFile := ⟨"data.csv", some ["Name", "Value"], [["A", "1"]]⟩

/-- A completely empty CSV file: `DictReader.fieldnames` is Python `None`. -/
def emptyFile : CSVFile := ⟨"empty.csv", none, []⟩

/-- A file with a data row shorter than the header, missing the Text field. -/
def shortRowFile : CSVFile := ⟨"short.csv", some ["Name", "Text"], [["A"]]⟩

/-- Same contents as `fileB`, different file name. -/
def fileA : CSVFile := ⟨"a.csv", some ["Text"], [["hi"]]⟩

/-- Same contents as `fileA`, different file name. -/
def fileB : CSVFile := ⟨"b.csv", some ["Text"], [["hi"]]⟩

/-- C2: in every completed run, the collected entries are the
concatenation, in discovery order, of the per-file entry lists (each of
which is in row order), and the merged output is the single-space join of
that concatenation. -/
theorem spec_C2 (files : List CSVFile) (r : ScriptResult)
    (h : runScript files = .ok r) :
    r.allText = (files.map fileEntries).flatten ∧
    r.mergedText = spaceJoin ((files.map fileEntries).flatten) := by
  obtain ⟨l, m, w, hp, rfl⟩ := runScript_ok_inv h
  have hl := processFiles_allText files l m w hp
  exact ⟨hl, by rw [hl]⟩

/-- C2 witness: Scenario C, `file1` yields `["foo","bar"]`, `file2` yields
`["baz"]`, merged output `"foo bar baz"`. -/
theorem spec_C2_witness :
    runScript [witFoo, witBaz] =
      .ok ⟨["foo", "bar", "baz"], 2, 0, "foo bar baz", 11, 3⟩ ∧
    (["foo", "bar", "baz"] : List String) =
      ([witFoo, witBaz].map fileEntries).flatten := by
  have h := spec_C2 [witFoo, witBaz]
    ⟨["foo", "bar", "baz"], 2, 0, "foo bar baz", 11, 3⟩ (by decide)
  exact ⟨by decide, h.1⟩

/-- C3: a file whose header exists but lacks the exact field name "Text"
is flagged (the warning branch is taken), contributes zero entries, and
the rest of the run proceeds unchanged: the whole run equals the run
without that file, with the warning count one higher. -/
theorem spec_C3 (f : CSVFile) (hd : List String) (hf : f.header = some hd)
    (hn : "Text" ∉ hd) :
    processFile f = .ok none ∧
    ∀ pre post : List CSVFile,
      runScript (pre ++ f :: post) =
        (runScript (pre ++ post)).map
          (fun r => { r with warnings := r.warnings + 1 }) := by
  have hskip := processFile_no_text hf hn
  refine ⟨hskip, ?_⟩
  intro pre post
  cases hpre : processFiles pre with
  | error e =>
    have h1 := processFiles_append_error pre (f :: post) e hpre
    have h2 := processFiles_append_error pre post e hpre
    rw [runScript_error _ _ h1, runScript_error _ _ h2]
    rfl
  | ok t =>
    obtain ⟨l, m, w⟩ := t
    have h1 := processFiles_append pre (f :: post) l m w hpre
    have h2 := processFiles_append pre post l m w hpre
    cases hpost : processFiles post with
    | error e =>
      have h3 : processFiles (f :: post) = .error e :=
        processFiles_cons_skip_error hskip hpost
      have h1e : processFiles (pre ++ f :: post) = .error e := by
        rw [h1, h3]; rfl
      have h2e : processFiles (pre ++ post) = .error e := by
        rw [h2, hpost]; rfl
      rw [runScript_error _ _ h1e, runScript_error _ _ h2e]
      rfl
    | ok t2 =>
      obtain ⟨l2, m2, w2⟩ := t2
      have h3 : processFiles (f :: post) = .ok (l2, m2, w2 + 1) :=
        processFiles_cons_skip_ok hskip hpost
      have h1o : processFiles (pre ++ f :: post) =
          .ok (l ++ l2, m + m2, w + (w2 + 1)) := by
        rw [h1, h3]; rfl
      have h2o : processFiles (pre ++ post) = .ok (l ++ l2, m + m2, w + w2) := by
        rw [h2, hpost]; rfl
      rw [runScript_eq _ _ _ _ h1o, runScript_eq _ _ _ _ h2o]
      simp only [Except.map, Except.ok.injEq, ScriptResult.mk.injEq,
        and_true, true_and, eq_self_iff_true]
      omega

/-- C3 witness: Scenario B file between two good files — one warning, no
entries from it, run continues. -/
theorem spec_C3_witness :
    processFile noTextFile = .ok none ∧
    runScript [witFoo, noTextFile, witBaz] =
      .ok ⟨["foo", "bar", "baz"], 2, 1, "foo bar baz", 11, 3⟩ := by
  have h := spec_C3 noTextFile ["Name", "Value"] rfl (by decide)
  refine ⟨h.1, ?_⟩
  have h2 := h.2 [witFoo] [witBaz]
  rw [show ([witFoo] ++ noTextFile :: [witBaz]) = [witFoo, noTextFile, witBaz]
    from rfl] at h2
  rw [h2]
  decide

/-- C6 counterexample: one file with header `Name,Text` and the single
short data row `["A"]` crashes with `AttributeError` before the per-file
"Extracted" print, so 0 messages are printed while 1 file has the "Text"
header — the unrestricted message-count property is false of the
program. -/
theorem spec_C6_counterexample :
    runScript [shortRowFile] = .error .attributeError ∧
    hasTextColumn shortRowFile = true ∧
    extractedMsgsPrinted [shortRowFile] = 0 ∧
    extractedMsgsPrinted [shortRowFile] ≠
      ([shortRowFile].filter hasTextColumn).length := by
  decide

/-- C6 (amended): in every run that completes normally (no uncaught
exception), the number of "Extracted" messages printed equals the number
of input files whose header contains the field "Text"; on such runs the
printed messages are exactly the loop's message counter. -/
theorem spec_C6 (files : List CSVFile) (r : ScriptResult)
    (h : runScript files = .ok r) :
    extractedMsgsPrinted files = (files.filter hasTextColumn).length ∧
    r.extractedMsgs = extractedMsgsPrinted files := by
  obtain ⟨l, m, w, hp, rfl⟩ := runScript_ok_inv h
  have h1 := processFiles_msgs files l m w hp
  have h2 := extractedMsgsPrinted_eq files l m w hp
  exact ⟨by rw [h2, h1], h2.symm⟩

/-- C6 witness: two files, one with a "Text" column and one without — one
"Extracted" message printed, matching the one qualifying file. -/
theorem spec_C6_witness :
    runScript [scenarioAFile, noTextFile] =
      .ok ⟨["hello", "world"], 1, 1, "hello world", 11, 2⟩ ∧
    extractedMsgsPrinted [scenarioAFile, noTextFile] =
      ([scenarioAFile, noTextFile].filter hasTextColumn).length := by
  have h := spec_C6 [scenarioAFile, noTextFile]
    ⟨["hello", "world"], 1, 1, "hello world", 11, 2⟩ (by decide)
  exact ⟨by decide, h.1⟩

/-- C8: the run is a deterministic function of the discovered files'
contents: two file sequences with identical headers and rows (names may
differ) produce identical outcomes, hence two runs on unchanged inputs
write byte-identical merged output. -/
theorem spec_C8 (files1 files2 : List CSVFile)
    (h : files1.map fileContents = files2.map fileContents) :
    runScript files1 = runScript files2 := by
  unfold runScript
  rw [processFiles_congr files1 files2 h]

/-- C8 witness: same contents under two different file names. -/
theorem spec_C8_witness : runScript [fileA] = runScript [fileB] :=
  spec_C8 [fileA] [fileB] (by decide)

/-- C9: a completely empty source file makes `DictReader.fieldnames`
Python `None`, so the membership test raises an uncaught `TypeError`: the
run aborts instead of warning and continuing. -/
theorem spec_C9 (f : CSVFile) (hf : f.header = none) (pre post : List CSVFile)
    (l : List String) (m w : Nat) (hpre : processFiles pre = .ok (l, m, w)) :
    processFile f = .error .typeError ∧
    runScript (pre ++ f :: post) = .error .typeError := by
  have he := processFile_no_header hf
  refine ⟨he, ?_⟩
  have h3 : processFiles (f :: post) = .error .typeError :=
    processFiles_cons_error post he
  have h1 : processFiles (pre ++ f :: post) = .error .typeError := by
    rw [processFiles_append pre (f :: post) l m w hpre, h3]; rfl
  exact runScript_error _ _ h1

lemma padRow_length (hdr vals : List String) :
    (padRow hdr vals).length = hdr.length := by
  simp only [padRow, List.length_append, List.length_take, List.length_map,
    List.length_replicate]
  omega

/-- A dict slot beyond the row's values holds the `restval`, Python `None`. -/
lemma padRow_getElem_none (hdr vals : List String) (i : Nat)
    (h1 : i < (padRow hdr vals).length) (hge : vals.length ≤ i) :
    (padRow hdr vals)[i] = none := by
  have hiz : i < hdr.length := by rw [← padRow_length hdr vals]; exact h1
  show ((vals.map some).take hdr.length ++
    List.replicate (hdr.length - vals.length) none)[i] = none
  have hla : ((vals.map some).take hdr.length).length ≤ i := by
    simp only [List.length_take, List.length_map]
    omega
  rw [List.getElem_append_right hla]
  exact List.getElem_replicate ..

/-- When every position of "Text" in the header lies beyond the row's
values, the dict binds "Text" to Python `None`. -/
lemma dictReaderGet_missing (hdr vals : List String)
    (hmiss : ∀ i, (hi : i < hdr.length) → hdr[i] = "Text" → vals.length ≤ i) :
    dictReaderGet hdr vals "Text" = none := by
  unfold dictReaderGet
  apply lookup_join_none
  intro p hp hkey
  rw [List.mem_reverse, List.mem_iff_getElem] at hp
  obtain ⟨i, hi, hpe⟩ := hp
  have hiz : i < hdr.length := by
    have h2 : i < min hdr.length (padRow hdr vals).length := by
      rw [← List.length_zip]; exact hi
    exact lt_of_lt_of_le h2 (Nat.min_le_left _ _)
  have hip : i < (padRow hdr vals).length := by
    rw [padRow_length]; exact hiz
  rw [List.getElem_zip] at hpe
  subst hpe
  exact padRow_getElem_none hdr vals i hip (hmiss i hiz hkey)

/-- C4: a data row whose "Text" value strips to the empty string
contributes no entry and no increment of the per-file extracted count:
the row loop's outcome with that row is identical to the outcome without
it (the extracted count is the length of the returned entry list). -/
theorem spec_C4 (hdr vals : List String) (s : String)
    (hv : dictReaderGet hdr vals "Text" = some s) (hs : pyStrip s = "")
    (rpre rpost : List (List String)) :
    extractRows hdr (rpre ++ vals :: rpost) = extractRows hdr (rpre ++ rpost) := by
  have hne : vals ≠ [] := by
    intro h
    rw [h, dictReaderGet_nil] at hv
    exact Option.noConfusion hv
  induction rpre with
  | nil =>
    rw [List.nil_append, List.nil_append]
    cases hrest : extractRows hdr rpost with
    | error e => exact extractRows_cons_some_error hne hv hrest
    | ok l => rw [extractRows_cons_some_ok hne hv hrest, if_pos hs]
  | cons r rest ih =>
    rw [List.cons_append, List.cons_append]
    by_cases hr0 : r = []
    · subst hr0
      rw [extractRows_cons_blank, extractRows_cons_blank]
      exact ih
    · cases hg : dictReaderGet hdr r "Text" with
      | none => rw [extractRows_cons_none _ hr0 hg, extractRows_cons_none _ hr0 hg]
      | some s2 =>
        cases h1 : extractRows hdr (rest ++ vals :: rpost) with
        | error e =>
          have h2 : extractRows hdr (rest ++ rpost) = .error e := by
            rw [← ih, h1]
          rw [extractRows_cons_some_error hr0 hg h1,
            extractRows_cons_some_error hr0 hg h2]
        | ok l =>
          have h2 : extractRows hdr (rest ++ rpost) = .ok l := by
            rw [← ih, h1]
          rw [extractRows_cons_some_ok hr0 hg h1,
            extractRows_cons_some_ok hr0 hg h2]

/-- C4 witness: a row whose "Text" value is whitespace only changes
nothing. -/
theorem spec_C4_witness :
    extractRows ["Name", "Text"] [["A", "hello"], ["B", "   "], ["C", "x"]] =
      extractRows ["Name", "Text"] [["A", "hello"], ["C", "x"]] :=
  spec_C4 ["Name", "Text"] ["B", "   "] "   " (by decide) (by decide)
    [["A", "hello"]] [["C", "x"]]

/-- C10: a non-blank data row with fewer fields than the header, missing
the "Text" field, gets Python `None` as its "Text" value; `.strip()` on it
raises an uncaught `AttributeError` and the run aborts instead of
skipping the row. -/
theorem spec_C10 (hdr vals : List String) (hT : "Text" ∈ hdr) (hne : vals ≠ [])
    (hmiss : ∀ i, (hi : i < hdr.length) → hdr[i] = "Text" → vals.length ≤ i)
    (rpre rpost : List (List String)) (l0 : List String)
    (hrp : extractRows hdr rpre = .ok l0)
    (f : CSVFile) (hfh : f.header = some hdr) (hfr : f.rows = rpre ++ vals :: rpost)
    (pre post : List CSVFile) (l : List String) (m w : Nat)
    (hpre : processFiles pre = .ok (l, m, w)) :
    dictReaderGet hdr vals "Text" = none ∧
    runScript (pre ++ f :: post) = .error .attributeError := by
  have hg := dictReaderGet_missing hdr vals hmiss
  refine ⟨hg, ?_⟩
  have h1 : extractRows hdr (vals :: rpost) = .error .attributeError :=
    extractRows_cons_none rpost hne hg
  have h2 : extractRows hdr f.rows = .error .attributeError := by
    rw [hfr, extractRows_append hdr rpre (vals :: rpost) l0 hrp, h1]; rfl
  have h3 : processFile f = .error .attributeError :=
    processFile_ext_error hfh hT h2
  have h4 : processFiles (f :: post) = .error .attributeError :=
    processFiles_cons_error post h3
  have h5 : processFiles (pre ++ f :: post) = .error .attributeError := by
    rw [processFiles_append pre (f :: post) l m w hpre, h4]; rfl
  exact runScript_error _ _ h5

/-- C10 witness: header `Name,Text`, single data row `["A"]` — the run
aborts with `AttributeError`. -/
theorem spec_C10_witness :
    dictReaderGet ["Name", "Text"] ["A"] "Text" = none ∧
    runScript [shortRowFile] = .error .attributeError := by
  have h := spec_C10 ["Name", "Text"] ["A"] (by decide) (by decide)
    (by
      intro i hi hT2
      have hi2 : i < 2 := by simpa using hi
      interval_cases i
      · simp at hT2
      · exact Nat.le_refl 1)
    [] [] [] rfl shortRowFile rfl rfl [] [] [] 0 0 rfl
  exact h

/-- C9 witness: a good file followed by an empty file — the run aborts
with `TypeError`. -/
theorem spec_C9_witness :
    processFile emptyFile = .error .typeError ∧
    runScript [scenarioAFile, emptyFile] = .error .typeError := by
  have h := spec_C9 emptyFile rfl [scenarioAFile] [] ["hello", "world"] 1 0
    (by decide)
  exact h

lemma headNotSpace_append_left (y z : List Char) (hy : y ≠ []) :
    headNotSpace (y ++ z) = headNotSpace y := by
  cases y with
  | nil => exact absurd rfl hy
  | cons c t => rfl

lemma headNotSpace_of_app (l2 t l1 : List Char) (h : l2 ++ t = l1)
    (hh : headNotSpace l1 = true) : headNotSpace l2 = true := by
  cases l2 with
  | nil => rfl
  | cons c r =>
    subst h
    simpa [headNotSpace] using hh

lemma headNotSpace_dropWhile (l : List Char) :
    headNotSpace (l.dropWhile pyIsSpace) = true := by
  induction l with
  | nil => rfl
  | cons c rest ih =>
    by_cases h : pyIsSpace c = true
    · rw [List.dropWhile_cons_of_pos h]; exact ih
    · rw [List.dropWhile_cons_of_neg h]
      simp only [headNotSpace, Bool.not_eq_true']
      exact Bool.not_eq_true _ ▸ (by simpa using h)

lemma lastNotSpace_eq : ∀ l : List Char, lastNotSpace l = headNotSpace l.reverse
  | [] => rfl
  | [_] => rfl
  | a :: b :: r => by
    have ih := lastNotSpace_eq (b :: r)
    rw [show lastNotSpace (a :: b :: r) = lastNotSpace (b :: r) from rfl, ih]
    rw [show (a :: b :: r).reverse = (b :: r).reverse ++ [a] from by simp]
    rw [headNotSpace_append_left _ _ (by simp)]

/-- Stripped text never starts with whitespace. -/
lemma headNotSpace_stripChars (l : List Char) :
    headNotSpace (stripChars l) = true := by
  have hsplit :
      ((l.dropWhile pyIsSpace).reverse.dropWhile pyIsSpace).reverse ++
        ((l.dropWhile pyIsSpace).reverse.takeWhile pyIsSpace).reverse =
        l.dropWhile pyIsSpace := by
    rw [← List.reverse_append, List.takeWhile_append_dropWhile,
      List.reverse_reverse]
  exact headNotSpace_of_app _ _ _ hsplit (headNotSpace_dropWhile l)

/-- Stripped text never ends with whitespace. -/
lemma lastNotSpace_stripChars (l : List Char) :
    lastNotSpace (stripChars l) = true := by
  rw [lastNotSpace_eq]
  rw [show (stripChars l).reverse =
    (l.dropWhile pyIsSpace).reverse.dropWhile pyIsSpace from by simp [stripChars]]
  exact headNotSpace_dropWhile _

lemma hasDoubleSpace_cons_cons (c d : Char) (r : List Char) :
    hasDoubleSpace (c :: d :: r) =
      ((c == ' ' && d == ' ') || hasDoubleSpace (d :: r)) := rfl

lemma not_space_beq (c : Char) (h : pyIsSpace c = false) : (c == ' ') = false := by
  by_cases hc : c = ' '
  · subst hc; exact absurd h (by decide)
  · simp [hc]

/-- Joining two space-free pieces with a single separating space creates
no double space, provided the left piece does not end and the right piece
does not start with whitespace. -/
lemma hasDoubleSpace_sep (b : List Char) (hhb : headNotSpace b = true)
    (hb : hasDoubleSpace b = false) :
    ∀ a : List Char, hasDoubleSpace a = false → lastNotSpace a = true →
      hasDoubleSpace (a ++ ' ' :: b) = false := by
  intro a
  induction a with
  | nil =>
    intro _ _
    rw [List.nil_append]
    cases b with
    | nil => rfl
    | cons d bs =>
      rw [hasDoubleSpace_cons_cons]
      have hd : (d == ' ') = false :=
        not_space_beq d (by simpa [headNotSpace] using hhb)
      simp [hd, hb]
  | cons c as ih =>
    intro ha hla
    cases as with
    | nil =>
      rw [List.cons_append, List.nil_append, hasDoubleSpace_cons_cons]
      have hc : (c == ' ') = false :=
        not_space_beq c (by simpa [lastNotSpace] using hla)
      have htail : hasDoubleSpace (' ' :: b) = false := by
        simpa using ih rfl rfl
      simp [hc, htail]
    | cons d as2 =>
      rw [List.cons_append, List.cons_append, hasDoubleSpace_cons_cons]
      rw [hasDoubleSpace_cons_cons] at ha
      rw [Bool.or_eq_false_iff] at ha
      obtain ⟨ha1, ha2⟩ := ha
      have hla2 : lastNotSpace (d :: as2) = true := hla
      have htail := ih ha2 hla2
      rw [List.cons_append] at htail
      simp [ha1, htail]

lemma joinChars_ne_nil (t : List Char) (r : List (List Char)) (ht : t ≠ []) :
    joinChars (t :: r) ≠ [] := by
  cases r with
  | nil => simpa [joinChars] using ht
  | cons u r2 => simp [joinChars]

/-- Joining non-empty entries that neither start nor end with whitespace:
the result has no double space beyond those inside entries, and no space
at either end. -/
lemma joinChars_props :
    ∀ ls : List (List Char),
      (∀ e ∈ ls, e ≠ [] ∧ headNotSpace e = true ∧ lastNotSpace e = true ∧
        hasDoubleSpace e = false) →
      hasDoubleSpace (joinChars ls) = false ∧
        headNotSpace (joinChars ls) = true ∧ lastNotSpace (joinChars ls) = true
  | [], _ => ⟨rfl, rfl, rfl⟩
  | [s], h => by
    obtain ⟨_, h1, h2, h3⟩ := h s (by simp)
    exact ⟨h3, h1, h2⟩
  | s :: t :: r, h => by
    obtain ⟨hs0, hs1, hs2, hs3⟩ := h s (by simp)
    obtain ⟨hods, hoh, hol⟩ :=
      joinChars_props (t :: r) (fun e he => h e (by simp [he]))
    have hJne : joinChars (t :: r) ≠ [] := joinChars_ne_nil t r (h t (by simp)).1
    refine ⟨?_, ?_, ?_⟩
    · exact hasDoubleSpace_sep (joinChars (t :: r)) hoh hods s hs3 hs2
    · rw [show joinChars (s :: t :: r) = s ++ ' ' :: joinChars (t :: r) from rfl,
        headNotSpace_append_left _ _ hs0]
      exact hs1
    · rw [show joinChars (s :: t :: r) = s ++ ' ' :: joinChars (t :: r) from rfl,
        lastNotSpace_eq]
      rw [show (s ++ ' ' :: joinChars (t :: r)).reverse =
        (joinChars (t :: r)).reverse ++ (' ' :: s.reverse) from by simp]
      rw [headNotSpace_append_left _ _ (by simpa using hJne)]
      rw [← lastNotSpace_eq]
      exact hol

/-- Every entry the row loop keeps is the strip of some field value and is
non-empty. -/
lemma extractRows_mem (hdr : List String) :
    ∀ (rows : List (List String)) (l : List String),
      extractRows hdr rows = .ok l →
      ∀ e ∈ l, ∃ s, e = pyStrip s ∧ e ≠ "" := by
  intro rows
  induction rows with
  | nil =>
    intro l hp e he
    rw [extractRows_nil] at hp
    injection hp with h
    subst h
    exact absurd he (List.not_mem_nil e)
  | cons vals rest ih =>
    intro l hp e he
    by_cases hv : vals = []
    · subst hv
      rw [extractRows_cons_blank] at hp
      exact ih l hp e he
    · cases hg : dictReaderGet hdr vals "Text" with
      | none =>
        rw [extractRows_cons_none rest hv hg] at hp
        exact Except.noConfusion hp
      | some s =>
        cases hrest : extractRows hdr rest with
        | error e2 =>
          rw [extractRows_cons_some_error hv hg hrest] at hp
          exact Except.noConfusion hp
        | ok l2 =>
          rw [extractRows_cons_some_ok hv hg hrest] at hp
          injection hp with h
          by_cases hs : pyStrip s = ""
          · rw [if_pos hs] at h
            subst h
            exact ih l2 hrest e he
          · rw [if_neg hs] at h
            subst h
            rcases List.mem_cons.mp he with hm | hm
            · exact ⟨s, hm, hm ▸ hs⟩
            · exact ih l2 hrest e hm

/-- Every entry a completed run collects is the strip of some field value
and is non-empty. -/
lemma processFiles_mem :
    ∀ (files : List CSVFile) (l : List String) (m w : Nat),
      processFiles files = .ok (l, m, w) →
      ∀ e ∈ l, ∃ s, e = pyStrip s ∧ e ≠ "" := by
  intro files
  induction files with
  | nil =>
    intro l m w hp e he
    rw [processFiles_nil] at hp
    injection hp with h
    injection h with h1 h2
    subst h1
    exact absurd he (List.not_mem_nil e)
  | cons f rest ih =>
    intro l m w hp e he
    cases hf : processFile f with
    | error e2 =>
      rw [processFiles_cons_error rest hf] at hp
      exact Except.noConfusion hp
    | ok o =>
      cases o with
      | none =>
        cases hrest : processFiles rest with
        | error e2 =>
          rw [processFiles_cons_skip_error hf hrest] at hp
          exact Except.noConfusion hp
        | ok t =>
          obtain ⟨l0, m0, w0⟩ := t
          rw [processFiles_cons_skip_ok hf hrest] at hp
          injection hp with h
          injection h with h1 h2
          subst h1
          exact ih l0 m0 w0 hrest e he
      | some entries =>
        cases hrest : processFiles rest with
        | error e2 =>
          rw [processFiles_cons_ext_error hf hrest] at hp
          exact Except.noConfusion hp
        | ok t =>
          obtain ⟨l0, m0, w0⟩ := t
          rw [processFiles_cons_ext_ok hf hrest] at hp
          injection hp with h
          injection h with h1 h2
          subst h1
          rcases List.mem_append.mp he with hm | hm
          · obtain ⟨hd, hfh, hT, hr⟩ := processFile_ext_inv hf
            exact extractRows_mem hd f.rows entries hr e hm
          · exact ih l0 m0 w0 hrest e hm

lemma ne_empty_data {s : String} (h : s ≠ "") : s.data ≠ [] := by
  intro hd
  apply h
  cases s with
  | mk d =>
    simp only at hd
    subst hd
    rfl

/-- C7: in every completed run whose entries contain no internal double
space, the merged output has no run of two or more consecutive spaces,
and no space (separator) at its very start or end — consecutive entries
are separated by exactly one space.  (The entries are pre-trimmed and
non-empty by construction, which the proof derives.) -/
theorem spec_C7 (files : List CSVFile) (r : ScriptResult)
    (h : runScript files = .ok r)
    (hds : ∀ e ∈ r.allText, hasDoubleSpace e.data = false) :
    hasDoubleSpace r.mergedText.data = false ∧
    headNotSpace r.mergedText.data = true ∧
    lastNotSpace r.mergedText.data = true := by
  obtain ⟨l, m, w, hp, rfl⟩ := runScript_ok_inv h
  apply joinChars_props (l.map String.data)
  intro e he
  rw [List.mem_map] at he
  obtain ⟨x, hx, hxe⟩ := he
  subst hxe
  obtain ⟨s, hxs, hxne⟩ := processFiles_mem files l m w hp x hx
  refine ⟨ne_empty_data hxne, ?_, ?_, hds x hx⟩
  · rw [hxs]
    exact headNotSpace_stripChars s.data
  · rw [hxs]
    exact lastNotSpace_stripChars s.data

/-- The result of the Scenario A run, used to witness C7. -/
def scenarioAResult : ScriptResult :=
  ⟨["hello", "world"], 1, 0, "hello world", 11, 2⟩

/-- C7 witness: the Scenario A run — `"hello world"` has no double space
and no space at either end. -/
theorem spec_C7_witness :
    hasDoubleSpace scenarioAResult.mergedText.data = false ∧
    headNotSpace scenarioAResult.mergedText.data = true ∧
    lastNotSpace scenarioAResult.mergedText.data = true :=
  spec_C7 [scenarioAFile] scenarioAResult (by decide) (by decide)

end MergeCsv
